import Mathlib

/-!
Shallow embedding of the review-analytics engine of `src/server.js`
(the `analyze_app_reviews` handler): tokenizer, lexicons, sentiment
classifier, keyword extractor, review normalizer, aggregation
(sentiment breakdown, keyword frequency, rating distribution, themes,
recent issues, top positive/negative keyword tables), together with
proofs settling the specification claims.

Modelling conventions:
- JavaScript strings are Lean `String`; absent text (`null`/`undefined`)
  is `Option.none`; the JS falsiness test `!text` accepts both `none`
  and the empty string.
- JS numbers carrying review scores are exact rationals `ℚ`
  (`Math.floor` becomes `Rat.floor`); timestamps are integer
  milliseconds (`Int`).
- JS objects used as accumulator dictionaries are association lists
  `List (String × Nat)` updated in insertion order (`bump`), and
  `Object.entries` is the list itself.
- `Array.prototype.sort` with comparator `(a, b) => b[1] - a[1]` is the
  stable descending-by-count insertion sort `sortByCountDesc`.
-/

namespace AppStore

/-- Word characters of the regex class in the source
(`match(/\b(\w+)\b/g)`): ASCII letters, digits, and underscore. -/
def isWordChar (c : Char) : Bool := c.isAlphanum || c == '_'

/-- Splits a character sequence into maximal runs of word characters.
The second argument accumulates the current run in reverse. -/
def tokenizeAux : List Char → List Char → List (List Char)
  | [], cur => if cur.isEmpty then [] else [cur.reverse]
  | c :: rest, cur =>
    if isWordChar c then
      tokenizeAux rest (c :: cur)
    else if cur.isEmpty then
      tokenizeAux rest []
    else
      cur.reverse :: tokenizeAux rest []

/-- Tokenizer of the source: lower-case the text, then take all maximal
runs of word characters (`text.toLowerCase().match(/\b(\w+)\b/g) || []`). -/
def tokenize (s : String) : List String :=
  (tokenizeAux (s.toList.map Char.toLower) []).map fun cs => String.mk cs

/-- Positive lexicon, verbatim from `analyzeSentiment` in the source. -/
def positiveWords : List String :=
  ["good", "great", "excellent", "awesome", "amazing", "love", "best",
   "perfect", "fantastic", "wonderful", "happy", "easy", "helpful",
   "recommend", "recommended", "nice", "beautiful", "fun", "enjoy",
   "worth", "favorite", "improvement", "improved", "better", "useful"]

/-- Negative lexicon, verbatim from `analyzeSentiment` in the source. -/
def negativeWords : List String :=
  ["bad", "terrible", "awful", "horrible", "poor", "worst", "waste",
   "useless", "difficult", "hate", "crash", "bug", "problem", "issue",
   "disappointing", "disappointed", "fix", "error", "fail", "fails",
   "wrong", "frustrating", "slow", "expensive", "annoying", "boring"]

/-- Stop-word list, verbatim from `extractKeywords` in the source. -/
def stopWords : List String :=
  ["i", "me", "my", "myself", "we", "our", "ours", "ourselves",
   "you", "your", "yours", "yourself", "yourselves", "he", "him",
   "his", "himself", "she", "her", "hers", "herself", "it", "its",
   "itself", "they", "them", "their", "theirs", "themselves",
   "what", "which", "who", "whom", "this", "that", "these", "those",
   "am", "is", "are", "was", "were", "be", "been", "being", "have",
   "has", "had", "having", "do", "does", "did", "doing", "a", "an",
   "the", "and", "but", "if", "or", "because", "as", "until", "while",
   "of", "at", "by", "for", "with", "about", "against", "between",
   "into", "through", "during", "before", "after", "above", "below",
   "to", "from", "up", "down", "in", "out", "on", "off", "over",
   "under", "again", "further", "then", "once", "here", "there",
   "when", "where", "why", "how", "all", "any", "both", "each",
   "few", "more", "most", "other", "some", "such", "no", "nor",
   "not", "only", "own", "same", "so", "than", "too", "very",
   "s", "t", "can", "will", "just", "don", "should", "now", "app"]

/-- One step of the word-counting loop in `analyzeSentiment`
(`words.forEach(word => { if pos includes word positiveCount++;
if neg includes word negativeCount++; })`). -/
def sentStep (pn : Nat × Nat) (w : String) : Nat × Nat :=
  let p := if positiveWords.contains w then pn.1 + 1 else pn.1
  let n := if negativeWords.contains w then pn.2 + 1 else pn.2
  (p, n)

/-- Sentiment classifier `analyzeSentiment(text)` of the source.
`!text` short-circuits on absent and on empty text. -/
def analyzeSentiment (text : Option String) : String :=
  match text with
  | none => "neutral"
  | some t =>
    if t = "" then "neutral"
    else
      let counts := (tokenize t).foldl sentStep (0, 0)
      let positiveCount := counts.1
      let negativeCount := counts.2
      if positiveCount > negativeCount * 2 then "positive"
      else if negativeCount > positiveCount * 2 then "negative"
      else if positiveCount > negativeCount then "somewhat positive"
      else if negativeCount > positiveCount then "somewhat negative"
      else "neutral"

/-- Keyword extractor `extractKeywords(text)` of the source: tokens that
are not stop words and have length strictly greater than 3, in text
order, duplicates retained. -/
def extractKeywords (text : Option String) : List String :=
  match text with
  | none => []
  | some t =>
    if t = "" then []
    else (tokenize t).filter fun w => !(stopWords.contains w) && decide (3 < w.length)

/-- Token sequence of an optional text: absent text has no tokens. -/
def tokensOf (text : Option String) : List String :=
  match text with
  | none => []
  | some t => tokenize t

/-- Classifier as the specification states it (claim side, for the
refinement theorem of claim C1): count tokens that are exact-match
members of each lexicon, with multiplicity, then apply the ordered
decision rule. -/
def sentimentSpec (text : Option String) : String :=
  let positiveCount := (tokensOf text).countP fun w => positiveWords.contains w
  let negativeCount := (tokensOf text).countP fun w => negativeWords.contains w
  if positiveCount > 2 * negativeCount then "positive"
  else if negativeCount > 2 * positiveCount then "negative"
  else if positiveCount > negativeCount then "somewhat positive"
  else if negativeCount > positiveCount then "somewhat negative"
  else "neutral"

lemma sentFold_eq (ws : List String) (pn : Nat × Nat) :
    ws.foldl sentStep pn
      = (pn.1 + ws.countP (fun w => positiveWords.contains w),
         pn.2 + ws.countP (fun w => negativeWords.contains w)) := by
  induction ws generalizing pn with
  | nil => simp
  | cons w ws ih =>
      rw [List.foldl_cons, List.countP_cons, List.countP_cons]
      by_cases hp : w ∈ positiveWords <;>
        by_cases hn : w ∈ negativeWords <;>
          simp [sentStep, hp, hn, ih] <;> omega

/-- Platform tag selecting the raw field mapping (`android` | `ios`). -/
inductive Platform where
  | android : Platform
  | ios : Platform
deriving DecidableEq

/-- Raw review record as consumed by the processing loop: `id`, `text`
(possibly absent), numeric `score`, and the two platform timestamp
fields `date` (android) and `updated` (ios), in integer milliseconds. -/
structure RawReview where
  id : String
  text : Option String
  score : ℚ
  date : Int
  updated : Int
deriving DecidableEq

/-- Canonical review produced by the processing loop. -/
structure CanonicalReview where
  id : String
  text : Option String
  score : ℚ
  sentiment : String
  keywords : List String
  date : Int
deriving DecidableEq

/-- Text selection of the processing loop
(`platform === "android" ? review.text : review.text`): both branches
read the same field. -/
def textOf (platform : Platform) (review : RawReview) : Option String :=
  match platform with
  | .android => review.text
  | .ios => review.text

/-- Score selection (`platform === "android" ? review.score : review.score`). -/
def scoreOf (platform : Platform) (review : RawReview) : ℚ :=
  match platform with
  | .android => review.score
  | .ios => review.score

/-- Date selection (`platform === "android" ? review.date : review.updated`). -/
def dateOf (platform : Platform) (review : RawReview) : Int :=
  match platform with
  | .android => review.date
  | .ios => review.updated

/-- Body of `reviews.map(review => ...)`: one raw review to its
canonical form. -/
def normalizeReview (platform : Platform) (review : RawReview) : CanonicalReview :=
  { id := review.id
    text := textOf platform review
    score := scoreOf platform review
    sentiment := analyzeSentiment (textOf platform review)
    keywords := extractKeywords (textOf platform review)
    date := dateOf platform review }

/-- The whole `processedReviews` array. -/
def processedReviews (platform : Platform) (reviews : List RawReview) : List CanonicalReview :=
  reviews.map (normalizeReview platform)

/-- JS dictionary update `obj[k] = (obj[k] || 0) + 1` on an association
list: bump an existing key in place, append a missing key with count 1. -/
def bump (k : String) : List (String × Nat) → List (String × Nat)
  | [] => [(k, 1)]
  | (k', v) :: rest => if k' = k then (k', v + 1) :: rest else (k', v) :: bump k rest

/-- Key sequence of an association list (`Object.keys`). -/
def keysOf {α : Type} : List (String × α) → List String
  | [] => []
  | (k, _) :: rest => k :: keysOf rest

/-- Sum of the counts stored in an association list. -/
def sumVals : List (String × Nat) → Nat
  | [] => 0
  | (_, v) :: rest => v + sumVals rest

/-- The five sentiment labels in the key order of the source's
`sentimentCounts` initializer. -/
def sentimentLabels : List String :=
  ["positive", "somewhat positive", "neutral", "somewhat negative", "negative"]

/-- Initial `sentimentCounts` object. -/
def sentimentCountsInit : List (String × Nat) :=
  [("positive", 0), ("somewhat positive", 0), ("neutral", 0),
   ("somewhat negative", 0), ("negative", 0)]

/-- The `sentimentCounts` accumulation loop over the processed reviews. -/
def sentimentCounts (reviews : List CanonicalReview) : List (String × Nat) :=
  reviews.foldl (fun acc r => bump r.sentiment acc) sentimentCountsInit

/-- Rounding to two decimal places, modelling
`parseFloat(percentage.toFixed(2))` on the exact rational percentage:
round half up (for the non-negative values occurring here this is the
round-half-away-from-zero of `toFixed`). -/
def round2 (q : ℚ) : ℚ := (Rat.floor (q * 100 + 1/2) : ℚ) / 100

/-- The `sentimentBreakdown` object: for each label of
`sentimentCounts`, the percentage `count / totalReviews * 100`
(`0` when `totalReviews` is zero), rounded to two decimals. -/
def sentimentBreakdown (reviews : List CanonicalReview) : List (String × ℚ) :=
  let totalReviews := reviews.length
  (sentimentCounts reviews).map fun kv =>
    let percentage : ℚ :=
      if totalReviews = 0 then 0 else ((kv.2 : ℚ) / (totalReviews : ℚ)) * 100
    (kv.1, round2 percentage)

/-- Concatenation of every processed review's keyword list
(`processedReviews.flatMap(review => review.keywords)`). -/
def allKeywords (reviews : List CanonicalReview) : List String :=
  reviews.flatMap CanonicalReview.keywords

/-- The `keywordFrequency` dictionary, keys in first-discovery order. -/
def keywordFrequency (reviews : List CanonicalReview) : List (String × Nat) :=
  (allKeywords reviews).foldl (fun acc k => bump k acc) []

/-- Stable insertion of an entry into a count-descending sorted list:
the entry goes before the first element whose count is not greater than
its own, matching the stable JS sort with comparator
`(a, b) => b[1] - a[1]`. -/
def insertByCountDesc (x : String × Nat) : List (String × Nat) → List (String × Nat)
  | [] => [x]
  | y :: ys => if y.2 ≤ x.2 then x :: y :: ys else y :: insertByCountDesc x ys

/-- Stable sort by descending count. -/
def sortByCountDesc : List (String × Nat) → List (String × Nat)
  | [] => []
  | x :: xs => insertByCountDesc x (sortByCountDesc xs)

/-- Top-20 keyword table (`topKeywords` in the source). -/
def topKeywords (reviews : List CanonicalReview) : List (String × Nat) :=
  (sortByCountDesc (keywordFrequency reviews)).take 20

/-- Stability trigger list (`bugKeywords`). -/
def bugKeywords : List String :=
  ["bug", "crash", "freezes", "frozen", "stuck", "error"]

/-- Pricing trigger list (`pricingKeywords`). -/
def pricingKeywords : List String :=
  ["price", "cost", "expensive", "cheap", "free", "subscription", "payment"]

/-- UX trigger list (`uxKeywords`). -/
def uxKeywords : List String :=
  ["interface", "design", "layout", "ugly", "beautiful", "easy", "difficult", "confusing"]

/-- Whether the first character list is a prefix of the second. -/
def isPrefList : List Char → List Char → Bool
  | [], _ => true
  | _ :: _, [] => false
  | a :: as, b :: bs => a == b && isPrefList as bs

/-- Whether the first character list occurs contiguously inside the
second. -/
def isSubList (needle : List Char) : List Char → Bool
  | [] => isPrefList needle []
  | c :: rest => isPrefList needle (c :: rest) || isSubList needle rest

/-- JS `s.includes(sub)`: substring containment, not exact match. -/
def strIncludes (s sub : String) : Bool := isSubList sub.toList s.toList

/-- Theme trigger test of the source:
`triggers.some(word => Object.keys(keywordFrequency).some(kw => kw.includes(word)))`. -/
def hasTheme (triggers : List String) (freq : List (String × Nat)) : Bool :=
  triggers.any fun word => (keysOf freq).any fun kw => strIncludes kw word

/-- One entry of the `commonThemes` array. -/
structure Theme where
  theme : String
  description : String
deriving DecidableEq

/-- The `commonThemes` array built by the three conditional pushes. -/
def commonThemes (reviews : List CanonicalReview) : List Theme :=
  let freq := keywordFrequency reviews
  (if hasTheme bugKeywords freq then
     [{ theme := "Stability Issues",
        description := "Users are reporting crashes, bugs, or freezes" }]
   else [])
  ++ (if hasTheme pricingKeywords freq then
     [{ theme := "Pricing Concerns",
        description := "Users are discussing price or subscription costs" }]
   else [])
  ++ (if hasTheme uxKeywords freq then
     [{ theme := "User Experience",
        description := "Users are commenting on the app\x27s design or usability" }]
   else [])

/-- Milliseconds in one day. -/
def dayMs : Int := 86400000

/-- `oneWeekAgo`: processing time minus seven days (the source subtracts
seven calendar days with `setDate`, modelled as seven 24-hour periods). -/
def oneWeekAgo (now : Int) : Int := now - 7 * dayMs

/-- The `recentNegativeReviews` filter: review date at or after
`oneWeekAgo` (no upper bound) and sentiment negative or somewhat
negative. -/
def recentNegativeReviews (now : Int) (reviews : List CanonicalReview) :
    List CanonicalReview :=
  reviews.filter fun review =>
    decide (oneWeekAgo now ≤ review.date) &&
      (review.sentiment == "negative" || review.sentiment == "somewhat negative")

/-- The `recentIssuesFrequency` dictionary. -/
def recentIssuesFrequency (now : Int) (reviews : List CanonicalReview) :
    List (String × Nat) :=
  ((recentNegativeReviews now reviews).flatMap CanonicalReview.keywords).foldl
    (fun acc k => bump k acc) []

/-- The `topRecentIssues` table: sort the recent-issue frequencies by
descending count and take ten. -/
def topRecentIssues (now : Int) (reviews : List CanonicalReview) :
    List (String × Nat) :=
  (sortByCountDesc (recentIssuesFrequency now reviews)).take 10

/-- Initial `ratingDistribution` object: the five star buckets. -/
def ratingDistributionInit : List (String × Nat) :=
  [("1", 0), ("2", 0), ("3", 0), ("4", 0), ("5", 0)]

/-- The `ratingDistribution` loop: floor each score; floors inside
[1, 5] increment their bucket (numeric keys coerce to strings), all
others are skipped. -/
def ratingDistribution (reviews : List CanonicalReview) : List (String × Nat) :=
  reviews.foldl
    (fun acc review =>
      let score := Rat.floor review.score
      if 1 ≤ score ∧ score ≤ 5 then bump (toString score) acc else acc)
    ratingDistributionInit

/-- Membership filter of `topPositiveKeywords`: some processed review
with sentiment exactly positive lists the key among its keywords. -/
def qualifiesPositive (reviews : List CanonicalReview) (kv : String × Nat) : Bool :=
  reviews.any fun r => r.sentiment == "positive" && r.keywords.contains kv.1

/-- Membership filter of `topNegativeKeywords`: some processed review
with sentiment exactly negative lists the key among its keywords. -/
def qualifiesNegative (reviews : List CanonicalReview) (kv : String × Nat) : Bool :=
  reviews.any fun r => r.sentiment == "negative" && r.keywords.contains kv.1

/-- `topPositiveKeywords` of the report: filter the global frequency
entries by the positive-membership test, sort by descending count, take
ten. -/
def topPositiveKeywords (reviews : List CanonicalReview) : List (String × Nat) :=
  (sortByCountDesc ((keywordFrequency reviews).filter (qualifiesPositive reviews))).take 10

/-- `topNegativeKeywords` of the report. -/
def topNegativeKeywords (reviews : List CanonicalReview) : List (String × Nat) :=
  (sortByCountDesc ((keywordFrequency reviews).filter (qualifiesNegative reviews))).take 10

/-!
Association-list and sorting infrastructure lemmas.
-/

lemma keysOf_bump_of_mem {k : String} :
    ∀ {acc : List (String × Nat)}, k ∈ keysOf acc → keysOf (bump k acc) = keysOf acc
  | [], h => by simp [keysOf] at h
  | (k', v) :: rest, h => by
      by_cases hk : k' = k
      · simp [bump, hk, keysOf]
      · have : k ∈ keysOf rest := by
          rcases (by simpa [keysOf] using h : k = k' ∨ k ∈ keysOf rest) with h1 | h1
          · exact absurd h1.symm hk
          · exact h1
        simp only [bump, hk, if_false, keysOf]
        rw [keysOf_bump_of_mem this]

lemma mem_keysOf_bump_self (k : String) :
    ∀ acc : List (String × Nat), k ∈ keysOf (bump k acc)
  | [] => by simp [bump, keysOf]
  | (k', v) :: rest => by
      by_cases hk : k' = k
      · simp [bump, hk, keysOf]
      · simp only [bump, hk, if_false, keysOf, List.mem_cons]
        exact Or.inr (mem_keysOf_bump_self k rest)

lemma mem_keysOf_bump_of_mem {k' k : String} :
    ∀ {acc : List (String × Nat)}, k' ∈ keysOf acc → k' ∈ keysOf (bump k acc)
  | [], h => by simp [keysOf] at h
  | (k0, v) :: rest, h => by
      rcases (by simpa [keysOf] using h : k' = k0 ∨ k' ∈ keysOf rest) with h1 | h1
      · by_cases hk : k0 = k <;> simp [bump, hk, keysOf, h1]
      · by_cases hk : k0 = k
        · simp [bump, hk, keysOf, Or.inr h1]
        · simp only [bump, hk, if_false, keysOf, List.mem_cons]
          exact Or.inr (mem_keysOf_bump_of_mem h1)

lemma mem_keysOf_foldl_bump {k : String} :
    ∀ (l : List String) (acc : List (String × Nat)),
      k ∈ l ∨ k ∈ keysOf acc → k ∈ keysOf (l.foldl (fun a x => bump x a) acc)
  | [], acc, h => by simpa using h.resolve_left (by simp)
  | x :: xs, acc, h => by
      rw [List.foldl_cons]
      refine mem_keysOf_foldl_bump xs (bump x acc) ?_
      rcases h with h | h
      · rcases List.mem_cons.mp h with h1 | h1
        · exact Or.inr (h1 ▸ mem_keysOf_bump_self k acc)
        · exact Or.inl h1
      · exact Or.inr (mem_keysOf_bump_of_mem h)

lemma sumVals_bump (k : String) :
    ∀ acc : List (String × Nat), sumVals (bump k acc) = sumVals acc + 1
  | [] => by simp [bump, sumVals]
  | (k', v) :: rest => by
      by_cases hk : k' = k
      · simp only [bump, hk, if_true, sumVals]; omega
      · simp only [bump, hk, if_false, sumVals]
        rw [sumVals_bump k rest]; omega

/-- Sortedness by weakly descending counts. -/
def CountsSorted (l : List (String × Nat)) : Prop :=
  l.Pairwise fun a b => b.2 ≤ a.2

lemma mem_insertByCountDesc {b x : String × Nat} :
    ∀ {l : List (String × Nat)}, b ∈ insertByCountDesc x l ↔ b = x ∨ b ∈ l
  | [] => by simp [insertByCountDesc]
  | y :: ys => by
      by_cases hcmp : y.2 ≤ x.2
      · rw [insertByCountDesc, if_pos hcmp]
        simp [or_assoc]
      · rw [insertByCountDesc, if_neg hcmp]
        simp only [List.mem_cons, mem_insertByCountDesc (l := ys)]
        tauto

lemma mem_sortByCountDesc {b : String × Nat} :
    ∀ {l : List (String × Nat)}, b ∈ sortByCountDesc l ↔ b ∈ l
  | [] => by simp [sortByCountDesc]
  | x :: xs => by
      rw [sortByCountDesc, mem_insertByCountDesc]
      simp [mem_sortByCountDesc (l := xs)]

lemma insertByCountDesc_sorted {x : String × Nat} :
    ∀ {l : List (String × Nat)}, CountsSorted l → CountsSorted (insertByCountDesc x l)
  | [], _ => by simp [insertByCountDesc, CountsSorted]
  | y :: ys, h => by
      have hy := (List.pairwise_cons.mp h).1
      have hys := (List.pairwise_cons.mp h).2
      by_cases hcmp : y.2 ≤ x.2
      · rw [insertByCountDesc, if_pos hcmp]
        refine List.pairwise_cons.mpr ⟨?_, h⟩
        intro b hb
        rcases List.mem_cons.mp hb with hb | hb
        · exact hb ▸ hcmp
        · exact le_trans (hy b hb) hcmp
      · rw [insertByCountDesc, if_neg hcmp]
        refine List.pairwise_cons.mpr ⟨?_, insertByCountDesc_sorted hys⟩
        intro b hb
        rcases mem_insertByCountDesc.mp hb with hb | hb
        · exact hb ▸ le_of_not_le hcmp
        · exact hy b hb

lemma sortByCountDesc_sorted : ∀ l : List (String × Nat), CountsSorted (sortByCountDesc l)
  | [] => by simp [sortByCountDesc, CountsSorted]
  | x :: xs => insertByCountDesc_sorted (sortByCountDesc_sorted xs)

lemma insertByCountDesc_eq_cons {x : String × Nat} {l : List (String × Nat)}
    (h : ∀ z ∈ l, z.2 ≤ x.2) : insertByCountDesc x l = x :: l := by
  cases l with
  | nil => rfl
  | cons y ys => rw [insertByCountDesc, if_pos (h y (by simp))]

lemma filter_insertByCountDesc (p : String × Nat → Bool) (x : String × Nat) :
    ∀ l : List (String × Nat), CountsSorted l →
      (insertByCountDesc x l).filter p
        = if p x then insertByCountDesc x (l.filter p) else l.filter p
  | [], _ => by by_cases hx : p x <;> simp [insertByCountDesc, hx]
  | y :: ys, h => by
      have hy := (List.pairwise_cons.mp h).1
      have hys := (List.pairwise_cons.mp h).2
      by_cases hcmp : y.2 ≤ x.2
      · rw [insertByCountDesc, if_pos hcmp]
        by_cases hx : p x
        · by_cases hpy : p y
          · rw [if_pos hx, List.filter_cons_of_pos hx, List.filter_cons_of_pos hpy,
              insertByCountDesc, if_pos hcmp]
          · rw [if_pos hx, List.filter_cons_of_pos hx, List.filter_cons_of_neg hpy]
            refine (insertByCountDesc_eq_cons ?_).symm
            intro z hz
            exact le_trans (hy z (List.mem_of_mem_filter hz)) hcmp
        · rw [if_neg hx, List.filter_cons_of_neg hx]
      · rw [insertByCountDesc, if_neg hcmp]
        by_cases hpy : p y
        · rw [List.filter_cons_of_pos hpy, List.filter_cons_of_pos hpy,
            filter_insertByCountDesc p x ys hys]
          by_cases hx : p x
          · rw [if_pos hx, if_pos hx, insertByCountDesc, if_neg hcmp]
          · rw [if_neg hx, if_neg hx]
        · rw [List.filter_cons_of_neg hpy, List.filter_cons_of_neg hpy,
            filter_insertByCountDesc p x ys hys]

lemma filter_sortByCountDesc (p : String × Nat → Bool) :
    ∀ l : List (String × Nat),
      (sortByCountDesc l).filter p = sortByCountDesc (l.filter p)
  | [] => rfl
  | x :: xs => by
      rw [sortByCountDesc,
        filter_insertByCountDesc p x (sortByCountDesc xs) (sortByCountDesc_sorted xs)]
      by_cases hx : p x
      · rw [if_pos hx, List.filter_cons_of_pos hx, sortByCountDesc,
          filter_sortByCountDesc p xs]
      · rw [if_neg hx, List.filter_cons_of_neg hx, filter_sortByCountDesc p xs]

/-!
Character-level lemmas for the tokenizer.
-/

lemma uint32_le_iff (a b : UInt32) : (a ≤ b) ↔ (a.toNat ≤ b.toNat) := by
  rw [UInt32.le_def]; rfl

lemma toNat_charOfNat {n : Nat} (h : n.isValidChar) : (Char.ofNat n).toNat = n := by
  simp [Char.ofNat, h, Char.ofNatAux, Char.toNat, UInt32.toNat, BitVec.toNat_ofNatLt]

lemma isUpper_toLower (c : Char) : (Char.toLower c).isUpper = false := by
  unfold Char.toLower
  by_cases h : c.toNat ≥ 65 ∧ c.toNat ≤ 90
  · rw [if_pos h]
    have hv : (c.toNat + 32).isValidChar := Or.inl (by omega)
    have ht : (Char.ofNat (c.toNat + 32)).toNat = c.toNat + 32 := toNat_charOfNat hv
    have hgt : ¬ ((Char.ofNat (c.toNat + 32)).val ≤ (90 : UInt32)) := by
      rw [uint32_le_iff]
      show ¬ ((Char.ofNat (c.toNat + 32)).toNat ≤ (90 : UInt32).toNat)
      rw [ht]
      show ¬ (c.toNat + 32 ≤ 90)
      omega
    simp [Char.isUpper, hgt]
  · rw [if_neg h]
    rcases Decidable.not_and_iff_or_not.mp h with h1 | h1
    · have : ¬ ((65 : UInt32) ≤ c.val) := by
        rw [uint32_le_iff]; exact h1
      simp [Char.isUpper, this]
    · have : ¬ (c.val ≤ (90 : UInt32)) := by
        rw [uint32_le_iff]; exact h1
      simp [Char.isUpper, this]

lemma tokenizeAux_chars {P : Char → Prop} :
    ∀ (l cur : List Char), (∀ c ∈ l, P c) → (∀ c ∈ cur, P c) →
      ∀ t ∈ tokenizeAux l cur, ∀ c ∈ t, P c := by
  intro l
  induction l with
  | nil =>
      intro cur hl hcur t ht c hc
      by_cases h : cur.isEmpty
      · simp [tokenizeAux, h] at ht
      · rw [tokenizeAux, if_neg h] at ht
        rw [List.mem_singleton.mp ht] at hc
        exact hcur c (List.mem_reverse.mp hc)
  | cons a rest ih =>
      intro cur hl hcur t ht c hc
      by_cases hw : isWordChar a
      · rw [tokenizeAux, if_pos hw] at ht
        refine ih (a :: cur) (fun x hx => hl x (List.mem_cons_of_mem a hx)) ?_ t ht c hc
        intro x hx
        rcases List.mem_cons.mp hx with h1 | h1
        · exact h1 ▸ hl a (List.mem_cons_self a rest)
        · exact hcur x h1
      · rw [tokenizeAux, if_neg hw] at ht
        by_cases he : cur.isEmpty
        · rw [if_pos he] at ht
          exact ih [] (fun x hx => hl x (List.mem_cons_of_mem a hx)) (by simp) t ht c hc
        · rw [if_neg he] at ht
          rcases List.mem_cons.mp ht with h1 | h1
          · rw [h1] at hc
            exact hcur c (List.mem_reverse.mp hc)
          · exact ih [] (fun x hx => hl x (List.mem_cons_of_mem a hx)) (by simp) t h1 c hc

/-- Every character of every token of the tokenizer is non-uppercase:
the text was lower-cased before splitting. -/
lemma tokenize_lower (s : String) :
    ∀ t ∈ tokenize s, ∀ c ∈ t.toList, c.isUpper = false := by
  intro t ht c hc
  rcases List.mem_map.mp ht with ⟨cs, hcs, rfl⟩
  have : ∀ c ∈ s.toList.map Char.toLower, c.isUpper = false := by
    intro x hx
    rcases List.mem_map.mp hx with ⟨d, _, rfl⟩
    exact isUpper_toLower d
  exact tokenizeAux_chars (s.toList.map Char.toLower) [] this (by simp) cs hcs c
    (by simpa using hc)

/-!
Claim C1.
-/

/-- C1: for every text input, `analyzeSentiment` counts exact-match
lexicon hits with multiplicity and returns the first matching rule of
the ordered decision list (positive / negative / somewhat positive /
somewhat negative / neutral); the empty and absent-text short-circuits
agree with the rule, both counts being zero there. -/
theorem analyzeSentiment_eq_sentimentSpec (t : Option String) :
    analyzeSentiment t = sentimentSpec t := by
  match t with
  | none => rfl
  | some s =>
    by_cases h : s = ""
    · subst h; rfl
    · simp [analyzeSentiment, sentimentSpec, tokensOf, h, sentFold_eq, Nat.mul_comm]

/-!
Claim C2: refuted as stated (the extractor keeps duplicate tokens), then
the amended statement.
-/

/-- C2 counterexample: on the text "great great" the extractor returns
the token "great" twice, so the result is not duplicate-free and is not
a set. -/
theorem extractKeywords_not_set :
    extractKeywords (some "great great") = ["great", "great"]
      ∧ ¬ (extractKeywords (some "great great")).Nodup := by
  constructor
  · rfl
  · decide

lemma extractKeywords_eq_filter (t : Option String) :
    extractKeywords t
      = (tokensOf t).filter (fun w => !(stopWords.contains w) && decide (3 < w.length)) := by
  match t with
  | none => rfl
  | some s =>
      by_cases h : s = ""
      · subst h; rfl
      · simp [extractKeywords, tokensOf, h]

/-- C2 amended: keyword extraction returns the list (not set) of the
text's tokens that are not stop words and have length greater than 3,
in occurrence order with duplicates retained; every returned token is
outside the stop-word list, longer than 3 characters, and lower-case
(contains no uppercase ASCII letter). -/
theorem extractKeywords_amended (t : Option String) :
    extractKeywords t
        = (tokensOf t).filter (fun w => !(stopWords.contains w) && decide (3 < w.length))
      ∧ ∀ w ∈ extractKeywords t,
          w ∉ stopWords ∧ 3 < w.length ∧ ∀ c ∈ w.toList, c.isUpper = false := by
  have hfilter := extractKeywords_eq_filter t
  refine ⟨hfilter, ?_⟩
  intro w hw
  rw [hfilter] at hw
  have hp := List.of_mem_filter hw
  have hmem := List.mem_of_mem_filter hw
  simp only [Bool.and_eq_true, Bool.not_eq_true', decide_eq_true_eq] at hp
  refine ⟨?_, ?_, ?_⟩
  · intro hcon
    have := hp.1
    simp [hcon] at this
  · exact hp.2
  · match t with
    | none => simp [tokensOf] at hmem
    | some s => exact tokenize_lower s w (by simpa [tokensOf] using hmem)

/-- C2 amended, witness at a concrete token of a concrete text. -/
theorem extractKeywords_amended_witness :
    "great" ∉ stopWords ∧ 3 < "great".length
      ∧ ∀ c ∈ "great".toList, c.isUpper = false :=
  (extractKeywords_amended (some "great great")).2 "great" (by decide)

/-!
Claim C9.
-/

/-- C9: sentiment and keywords of a processed review are pure functions
of the review text alone; any two canonical reviews drawn from any two
batches under any platform mappings with identical text get identical
sentiment and identical keywords. -/
theorem sentiment_keywords_pure (p1 p2 : Platform) (raws1 raws2 : List RawReview)
    (c1 c2 : CanonicalReview)
    (h1 : c1 ∈ processedReviews p1 raws1) (h2 : c2 ∈ processedReviews p2 raws2)
    (ht : c1.text = c2.text) :
    c1.sentiment = c2.sentiment ∧ c1.keywords = c2.keywords := by
  rcases List.mem_map.mp h1 with ⟨r1, _, rfl⟩
  rcases List.mem_map.mp h2 with ⟨r2, _, rfl⟩
  simp only [normalizeReview] at ht ⊢
  rw [ht]
  exact ⟨rfl, rfl⟩

/-- C9 witness: two raw reviews with the same text but different ids,
scores, dates, platforms and batches classify identically. -/
theorem sentiment_keywords_pure_witness :
    (normalizeReview Platform.android ⟨"a", some "love it", 5, 0, 0⟩).sentiment
        = (normalizeReview Platform.ios ⟨"b", some "love it", 1, 99, 77⟩).sentiment
      ∧ (normalizeReview Platform.android ⟨"a", some "love it", 5, 0, 0⟩).keywords
        = (normalizeReview Platform.ios ⟨"b", some "love it", 1, 99, 77⟩).keywords :=
  sentiment_keywords_pure Platform.android Platform.ios
    [⟨"a", some "love it", 5, 0, 0⟩, ⟨"c", none, 2, 1, 1⟩] [⟨"b", some "love it", 1, 99, 77⟩]
    (normalizeReview Platform.android ⟨"a", some "love it", 5, 0, 0⟩)
    (normalizeReview Platform.ios ⟨"b", some "love it", 1, 99, 77⟩)
    (by simp [processedReviews]) (by simp [processedReviews]) rfl

/-!
Claim C3.
-/

lemma qualifiesPositive_iff {reviews : List CanonicalReview} {kv : String × Nat} :
    qualifiesPositive reviews kv = true
      ↔ ∃ r ∈ reviews, r.sentiment = "positive" ∧ kv.1 ∈ r.keywords := by
  simp [qualifiesPositive]

lemma qualifiesNegative_iff {reviews : List CanonicalReview} {kv : String × Nat} :
    qualifiesNegative reviews kv = true
      ↔ ∃ r ∈ reviews, r.sentiment = "negative" ∧ kv.1 ∈ r.keywords := by
  simp [qualifiesNegative]

/-- C3: each top table equals the top ten of the globally
frequency-ranked keyword entries restricted to keywords of at least one
exactly-positive (resp. exactly-negative) review (the code filters and
then stably sorts; restricting the globally ranked list gives the same
table); every table entry is backed by a review of exactly that
sentiment; a keyword occurring in both a positive and a negative review
passes both membership filters, so it can appear in both tables; and
when no review is exactly positive (resp. negative) — for instance when
all sentiments are somewhat positive or somewhat negative — that table
is empty. -/
theorem topKeywordTables_spec (reviews : List CanonicalReview) :
    topPositiveKeywords reviews
        = ((sortByCountDesc (keywordFrequency reviews)).filter
            (qualifiesPositive reviews)).take 10
      ∧ topNegativeKeywords reviews
        = ((sortByCountDesc (keywordFrequency reviews)).filter
            (qualifiesNegative reviews)).take 10
      ∧ (∀ kv ∈ topPositiveKeywords reviews,
          ∃ r ∈ reviews, r.sentiment = "positive" ∧ kv.1 ∈ r.keywords)
      ∧ (∀ kv ∈ topNegativeKeywords reviews,
          ∃ r ∈ reviews, r.sentiment = "negative" ∧ kv.1 ∈ r.keywords)
      ∧ (∀ (k : String) (c c' : Nat),
          (∃ r ∈ reviews, r.sentiment = "positive" ∧ k ∈ r.keywords) →
          (∃ r ∈ reviews, r.sentiment = "negative" ∧ k ∈ r.keywords) →
          qualifiesPositive reviews (k, c) = true
            ∧ qualifiesNegative reviews (k, c') = true)
      ∧ ((∀ r ∈ reviews, r.sentiment ≠ "positive") → topPositiveKeywords reviews = [])
      ∧ ((∀ r ∈ reviews, r.sentiment ≠ "negative") → topNegativeKeywords reviews = []) := by
  have hpos : topPositiveKeywords reviews
      = ((sortByCountDesc (keywordFrequency reviews)).filter
          (qualifiesPositive reviews)).take 10 := by
    rw [topPositiveKeywords, filter_sortByCountDesc]
  have hneg : topNegativeKeywords reviews
      = ((sortByCountDesc (keywordFrequency reviews)).filter
          (qualifiesNegative reviews)).take 10 := by
    rw [topNegativeKeywords, filter_sortByCountDesc]
  refine ⟨hpos, hneg, ?_, ?_, ?_, ?_, ?_⟩
  · intro kv hkv
    rw [topPositiveKeywords] at hkv
    have h1 := mem_sortByCountDesc.mp (List.take_subset _ _ hkv)
    exact qualifiesPositive_iff.mp (List.of_mem_filter h1)
  · intro kv hkv
    rw [topNegativeKeywords] at hkv
    have h1 := mem_sortByCountDesc.mp (List.take_subset _ _ hkv)
    exact qualifiesNegative_iff.mp (List.of_mem_filter h1)
  · intro k c c' hp hn
    exact ⟨qualifiesPositive_iff.mpr hp, qualifiesNegative_iff.mpr hn⟩
  · intro hnone
    rw [topPositiveKeywords]
    have hnil : (keywordFrequency reviews).filter (qualifiesPositive reviews) = [] := by
      refine List.filter_eq_nil_iff.mpr ?_
      intro kv _ hq
      rcases qualifiesPositive_iff.mp hq with ⟨r, hr, hs, _⟩
      exact hnone r hr hs
    rw [hnil]
    rfl
  · intro hnone
    rw [topNegativeKeywords]
    have hnil : (keywordFrequency reviews).filter (qualifiesNegative reviews) = [] := by
      refine List.filter_eq_nil_iff.mpr ?_
      intro kv _ hq
      rcases qualifiesNegative_iff.mp hq with ⟨r, hr, hs, _⟩
      exact hnone r hr hs
    rw [hnil]
    rfl

/-- C3 witness: on a two-review collection the shared keyword "speed"
qualifies for both tables, and on a collection with only somewhat
sentiments both tables are empty. -/
theorem topKeywordTables_spec_witness :
    (∃ r ∈ [(⟨"1", some "x", 5, "positive", ["speed", "battery"], 0⟩ : CanonicalReview),
            ⟨"2", some "y", 1, "negative", ["speed"], 0⟩],
        r.sentiment = "positive" ∧ ("speed", 2).1 ∈ r.keywords)
      ∧ qualifiesPositive
          [⟨"1", some "x", 5, "positive", ["speed", "battery"], 0⟩,
           ⟨"2", some "y", 1, "negative", ["speed"], 0⟩] ("speed", 2) = true
      ∧ qualifiesNegative
          [⟨"1", some "x", 5, "positive", ["speed", "battery"], 0⟩,
           ⟨"2", some "y", 1, "negative", ["speed"], 0⟩] ("speed", 2) = true
      ∧ topPositiveKeywords
          [⟨"3", none, 3, "somewhat positive", ["speed"], 0⟩,
           ⟨"4", none, 3, "somewhat negative", ["battery"], 0⟩] = []
      ∧ topNegativeKeywords
          [⟨"3", none, 3, "somewhat positive", ["speed"], 0⟩,
           ⟨"4", none, 3, "somewhat negative", ["battery"], 0⟩] = [] := by
  refine ⟨?_, ?_, ?_, ?_, ?_⟩
  · exact (topKeywordTables_spec
      [⟨"1", some "x", 5, "positive", ["speed", "battery"], 0⟩,
       ⟨"2", some "y", 1, "negative", ["speed"], 0⟩]).2.2.1 ("speed", 2) (by decide)
  · exact ((topKeywordTables_spec
      [⟨"1", some "x", 5, "positive", ["speed", "battery"], 0⟩,
       ⟨"2", some "y", 1, "negative", ["speed"], 0⟩]).2.2.2.2.1 "speed" 2 2
        (by decide) (by decide)).1
  · exact ((topKeywordTables_spec
      [⟨"1", some "x", 5, "positive", ["speed", "battery"], 0⟩,
       ⟨"2", some "y", 1, "negative", ["speed"], 0⟩]).2.2.2.2.1 "speed" 2 2
        (by decide) (by decide)).2
  · exact (topKeywordTables_spec
      [⟨"3", none, 3, "somewhat positive", ["speed"], 0⟩,
       ⟨"4", none, 3, "somewhat negative", ["battery"], 0⟩]).2.2.2.2.2.1 (by decide)
  · exact (topKeywordTables_spec
      [⟨"3", none, 3, "somewhat positive", ["speed"], 0⟩,
       ⟨"4", none, 3, "somewhat negative", ["battery"], 0⟩]).2.2.2.2.2.2 (by decide)

/-!
Claims C10 and C5: rating-distribution shape and bucket sums.
-/

lemma toString_mem_buckets {s : Int} (h1 : 1 ≤ s) (h5 : s ≤ 5) :
    toString s ∈ ["1", "2", "3", "4", "5"] := by
  have : s = 1 ∨ s = 2 ∨ s = 3 ∨ s = 4 ∨ s = 5 := by omega
  rcases this with h | h | h | h | h <;> subst h <;> decide

lemma keysOf_ratingLoop :
    ∀ (rs : List CanonicalReview) (acc : List (String × Nat)),
      keysOf acc = ["1", "2", "3", "4", "5"] →
      keysOf (rs.foldl
        (fun acc review =>
          let score := Rat.floor review.score
          if 1 ≤ score ∧ score ≤ 5 then bump (toString score) acc else acc) acc)
        = ["1", "2", "3", "4", "5"]
  | [], acc, h => h
  | r :: rs, acc, h => by
      rw [List.foldl_cons]
      refine keysOf_ratingLoop rs _ ?_
      by_cases hr : 1 ≤ Rat.floor r.score ∧ Rat.floor r.score ≤ 5
      · rw [if_pos hr, keysOf_bump_of_mem (by rw [h]; exact toString_mem_buckets hr.1 hr.2), h]
      · rwa [if_neg hr]

/-- C10: for every review collection the rating distribution has
exactly the five bucket keys "1" to "5" in order — buckets nothing
falls into stay present with count 0 — so the table is never empty,
and every bucket count is a non-negative integer. -/
theorem ratingDistribution_keys (reviews : List CanonicalReview) :
    keysOf (ratingDistribution reviews) = ["1", "2", "3", "4", "5"]
      ∧ ratingDistribution reviews ≠ []
      ∧ ∀ kv ∈ ratingDistribution reviews, 0 ≤ kv.2 := by
  have hkeys : keysOf (ratingDistribution reviews) = ["1", "2", "3", "4", "5"] :=
    keysOf_ratingLoop reviews ratingDistributionInit rfl
  refine ⟨hkeys, ?_, fun kv _ => Nat.zero_le kv.2⟩
  intro hnil
  rw [hnil] at hkeys
  exact absurd hkeys (by decide)

lemma sumVals_ratingLoop :
    ∀ (rs : List CanonicalReview) (acc : List (String × Nat)),
      sumVals (rs.foldl
        (fun acc review =>
          let score := Rat.floor review.score
          if 1 ≤ score ∧ score ≤ 5 then bump (toString score) acc else acc) acc)
        = sumVals acc
            + rs.countP (fun r => decide (1 ≤ Rat.floor r.score ∧ Rat.floor r.score ≤ 5))
  | [], acc => by simp
  | r :: rs, acc => by
      rw [List.foldl_cons, List.countP_cons]
      by_cases hr : 1 ≤ Rat.floor r.score ∧ Rat.floor r.score ≤ 5
      · rw [if_pos hr, sumVals_ratingLoop rs _, sumVals_bump]
        simp [hr]
        omega
      · rw [if_neg hr, sumVals_ratingLoop rs _]
        simp [hr]

/-- C5: the rating distribution buckets scores by integer floor into
buckets 1–5; a review whose floored score falls outside [1, 5] is
counted in no bucket (and the loop is total, no error), so the bucket
counts sum to exactly the number of in-range reviews, hence to at most
the collection size, and to strictly less whenever some review's score
floors outside [1, 5]. -/
theorem ratingDistribution_sum (reviews : List CanonicalReview) :
    sumVals (ratingDistribution reviews)
        = reviews.countP (fun r => decide (1 ≤ Rat.floor r.score ∧ Rat.floor r.score ≤ 5))
      ∧ sumVals (ratingDistribution reviews) ≤ reviews.length
      ∧ ((∃ r ∈ reviews, ¬ (1 ≤ Rat.floor r.score ∧ Rat.floor r.score ≤ 5)) →
          sumVals (ratingDistribution reviews) < reviews.length) := by
  have hsum : sumVals (ratingDistribution reviews)
      = reviews.countP (fun r => decide (1 ≤ Rat.floor r.score ∧ Rat.floor r.score ≤ 5)) := by
    rw [ratingDistribution, sumVals_ratingLoop]
    simp [ratingDistributionInit, sumVals]
  refine ⟨hsum, hsum ▸ List.countP_le_length _, ?_⟩
  rintro ⟨r, hr, hout⟩
  rw [hsum]
  refine Nat.lt_of_le_of_ne (List.countP_le_length _) ?_
  intro heq
  exact hout (by simpa using List.countP_eq_length.mp heq r hr)

/-- C5 witness: one review with score 6 (floor 6, outside the buckets)
makes the bucket sum strictly smaller than the collection size. -/
theorem ratingDistribution_sum_witness :
    sumVals (ratingDistribution
        [(⟨"1", none, 6, "neutral", [], 0⟩ : CanonicalReview),
         ⟨"2", none, 4, "neutral", [], 0⟩])
      < ([(⟨"1", none, 6, "neutral", [], 0⟩ : CanonicalReview),
          ⟨"2", none, 4, "neutral", [], 0⟩] : List CanonicalReview).length :=
  (ratingDistribution_sum
      [⟨"1", none, 6, "neutral", [], 0⟩, ⟨"2", none, 4, "neutral", [], 0⟩]).2.2
    ⟨⟨"1", none, 6, "neutral", [], 0⟩, by decide, by decide⟩

/-!
Claim C4: refuted as stated (the degenerate rating distribution is not
empty), then the amended statement.
-/

lemma ratFloor_eq_intFloor (q : ℚ) : Rat.floor q = ⌊q⌋ :=
  (Rat.floor_def' q).trans Rat.floor_def.symm

lemma round2_zero : round2 0 = 0 := by
  rw [round2, ratFloor_eq_intFloor]
  norm_num

/-- C4 counterexample: on the empty review collection the rating
distribution is not an empty table — it holds the five zero buckets. -/
theorem emptyReport_counterexample :
    ratingDistribution (processedReviews Platform.android []) ≠ [] := by
  decide

/-- C4 amended: the empty review collection is processed without
failure into the degenerate report: zero reviews analyzed, all five
sentiment percentages 0 (not NaN, by the explicit zero-total branch),
empty top-keyword table, rating distribution holding the five buckets
"1"–"5" each with count 0 (present, not an empty table), empty
recent-issues table and empty theme list. -/
theorem emptyReport_amended (platform : Platform) (now : Int) :
    processedReviews platform [] = []
      ∧ (processedReviews platform []).length = 0
      ∧ sentimentBreakdown (processedReviews platform [])
          = [("positive", 0), ("somewhat positive", 0), ("neutral", 0),
             ("somewhat negative", 0), ("negative", 0)]
      ∧ topKeywords (processedReviews platform []) = []
      ∧ ratingDistribution (processedReviews platform [])
          = [("1", 0), ("2", 0), ("3", 0), ("4", 0), ("5", 0)]
      ∧ topRecentIssues now (processedReviews platform []) = []
      ∧ commonThemes (processedReviews platform []) = [] := by
  refine ⟨rfl, rfl, ?_, rfl, rfl, rfl, rfl⟩
  have hnil : processedReviews platform [] = [] := rfl
  rw [hnil]
  simp [sentimentBreakdown, sentimentCounts, sentimentCountsInit, round2_zero]

/-!
Claim C8.
-/

lemma hasTheme_iff {triggers : List String} {freq : List (String × Nat)} :
    hasTheme triggers freq = true
      ↔ ∃ kw ∈ keysOf freq, ∃ t ∈ triggers, strIncludes kw t = true := by
  simp only [hasTheme, List.any_eq_true]
  constructor
  · rintro ⟨w, hw, kw, hkw, h⟩
    exact ⟨kw, hkw, w, hw, h⟩
  · rintro ⟨kw, hkw, w, hw, h⟩
    exact ⟨w, hw, kw, hkw, h⟩

lemma commonThemes_names (reviews : List CanonicalReview) (name : String) :
    name ∈ (commonThemes reviews).map Theme.theme
      ↔ (name = "Stability Issues"
            ∧ hasTheme bugKeywords (keywordFrequency reviews) = true)
        ∨ (name = "Pricing Concerns"
            ∧ hasTheme pricingKeywords (keywordFrequency reviews) = true)
        ∨ (name = "User Experience"
            ∧ hasTheme uxKeywords (keywordFrequency reviews) = true) := by
  by_cases h1 : hasTheme bugKeywords (keywordFrequency reviews) <;>
    by_cases h2 : hasTheme pricingKeywords (keywordFrequency reviews) <;>
      by_cases h3 : hasTheme uxKeywords (keywordFrequency reviews) <;>
        simp [commonThemes, h1, h2, h3]

/-- C8: a theme fires exactly when some key of the keyword frequency
table contains, as a substring, some term of that theme's fixed trigger
list (for each of the three themes); and any collection containing a
review whose text has the token "crash" puts "crash" into the keyword
frequency table and "Stability Issues" into the theme list. -/
theorem themes_spec :
    (∀ reviews : List CanonicalReview,
        ("Stability Issues" ∈ (commonThemes reviews).map Theme.theme
            ↔ ∃ kw ∈ keysOf (keywordFrequency reviews), ∃ t ∈ bugKeywords,
                strIncludes kw t = true)
          ∧ ("Pricing Concerns" ∈ (commonThemes reviews).map Theme.theme
            ↔ ∃ kw ∈ keysOf (keywordFrequency reviews), ∃ t ∈ pricingKeywords,
                strIncludes kw t = true)
          ∧ ("User Experience" ∈ (commonThemes reviews).map Theme.theme
            ↔ ∃ kw ∈ keysOf (keywordFrequency reviews), ∃ t ∈ uxKeywords,
                strIncludes kw t = true))
      ∧ ∀ (platform : Platform) (raws : List RawReview) (r : RawReview),
          r ∈ raws → "crash" ∈ tokensOf (textOf platform r) →
          "crash" ∈ keysOf (keywordFrequency (processedReviews platform raws))
            ∧ "Stability Issues"
                ∈ (commonThemes (processedReviews platform raws)).map Theme.theme := by
  constructor
  · intro reviews
    refine ⟨?_, ?_, ?_⟩ <;>
      · rw [commonThemes_names, ← hasTheme_iff]
        simp
  · intro platform raws r hr htok
    have hkw : "crash" ∈ extractKeywords (textOf platform r) := by
      rw [extractKeywords_eq_filter]
      exact List.mem_filter.mpr ⟨htok, by decide⟩
    have hall : "crash" ∈ allKeywords (processedReviews platform raws) := by
      rw [allKeywords]
      exact List.mem_flatMap.mpr
        ⟨normalizeReview platform r, List.mem_map.mpr ⟨r, hr, rfl⟩, hkw⟩
    have hkey : "crash" ∈ keysOf (keywordFrequency (processedReviews platform raws)) :=
      mem_keysOf_foldl_bump _ _ (Or.inl hall)
    refine ⟨hkey, ?_⟩
    rw [commonThemes_names]
    exact Or.inl ⟨rfl, hasTheme_iff.mpr ⟨"crash", hkey, "crash", by decide, by decide⟩⟩

/-- C8 witness: a concrete collection whose single review mentions
"crash". -/
theorem themes_spec_witness :
    "crash" ∈ keysOf (keywordFrequency (processedReviews Platform.android
        [⟨"1", some "constant crash problems", 1, 0, 0⟩]))
      ∧ "Stability Issues" ∈ (commonThemes (processedReviews Platform.android
          [⟨"1", some "constant crash problems", 1, 0, 0⟩])).map Theme.theme :=
  themes_spec.2 Platform.android [⟨"1", some "constant crash problems", 1, 0, 0⟩]
    ⟨"1", some "constant crash problems", 1, 0, 0⟩ (by simp) (by decide)

/-!
Claim C7: refuted as stated (the code's recency filter has no upper
date bound, so future-dated reviews pass), then the amended statement.
-/

/-- Recent filter as the claim states it (claim side): date within the
seven days before processing time — lower AND upper bound — and
sentiment negative or somewhat negative. -/
def recentSpecFilter (now : Int) (reviews : List CanonicalReview) :
    List CanonicalReview :=
  reviews.filter fun review =>
    decide (oneWeekAgo now ≤ review.date) && decide (review.date ≤ now) &&
      (review.sentiment == "negative" || review.sentiment == "somewhat negative")

/-- C7 counterexample: a negative review dated one day in the future of
processing time is kept by the code but does not lie within the seven
days before processing time. -/
theorem recentIssues_counterexample :
    recentNegativeReviews 0 (processedReviews Platform.android
        [⟨"1", some "terrible terrible", 1, 86400000, 0⟩])
      ≠ recentSpecFilter 0 (processedReviews Platform.android
          [⟨"1", some "terrible terrible", 1, 86400000, 0⟩]) := by
  decide

/-- C7 amended: the recent-issues table keeps exactly the reviews whose
date is at or after seven days before processing time (no upper bound:
future-dated reviews also qualify) with sentiment negative or somewhat
negative, accumulates their keywords into a frequency table and takes
the top ten by descending count; in particular a negative review dated
ten days before processing time contributes nothing, while one dated
two days before does. -/
theorem recentIssues_amended (now : Int) (reviews : List CanonicalReview) :
    recentNegativeReviews now reviews
        = reviews.filter (fun review =>
            decide (oneWeekAgo now ≤ review.date) &&
              (review.sentiment == "negative"
                || review.sentiment == "somewhat negative"))
      ∧ topRecentIssues now reviews
          = (sortByCountDesc (recentIssuesFrequency now reviews)).take 10
      ∧ ∀ r ∈ reviews, r.sentiment = "negative" →
          (r.date = now - 10 * dayMs → r ∉ recentNegativeReviews now reviews)
            ∧ (r.date = now - 2 * dayMs → r ∈ recentNegativeReviews now reviews) := by
  refine ⟨rfl, rfl, ?_⟩
  intro r hr hneg
  constructor
  · intro hdate hmem
    have hp := List.of_mem_filter hmem
    simp only [Bool.and_eq_true, decide_eq_true_eq] at hp
    have hle := hp.1
    rw [hdate] at hle
    simp only [oneWeekAgo, dayMs] at hle
    omega
  · intro hdate
    refine List.mem_filter.mpr ⟨hr, ?_⟩
    simp only [Bool.and_eq_true, Bool.or_eq_true, decide_eq_true_eq, beq_iff_eq]
    refine ⟨?_, Or.inl hneg⟩
    rw [hdate]
    simp only [oneWeekAgo, dayMs]
    omega

/-- C7 witness: with processing time 0, a negative review dated ten
days earlier is excluded and one dated two days earlier is included. -/
theorem recentIssues_amended_witness :
    (⟨"a", none, 1, "negative", ["lag"], -864000000⟩ : CanonicalReview)
        ∉ recentNegativeReviews 0
            [⟨"a", none, 1, "negative", ["lag"], -864000000⟩,
             ⟨"b", none, 1, "negative", ["lag"], -172800000⟩]
      ∧ (⟨"b", none, 1, "negative", ["lag"], -172800000⟩ : CanonicalReview)
        ∈ recentNegativeReviews 0
            [⟨"a", none, 1, "negative", ["lag"], -864000000⟩,
             ⟨"b", none, 1, "negative", ["lag"], -172800000⟩] :=
  ⟨((recentIssues_amended 0
      [⟨"a", none, 1, "negative", ["lag"], -864000000⟩,
       ⟨"b", none, 1, "negative", ["lag"], -172800000⟩]).2.2
      ⟨"a", none, 1, "negative", ["lag"], -864000000⟩ (by simp) rfl).1 (by decide),
   ((recentIssues_amended 0
      [⟨"a", none, 1, "negative", ["lag"], -864000000⟩,
       ⟨"b", none, 1, "negative", ["lag"], -172800000⟩]).2.2
      ⟨"b", none, 1, "negative", ["lag"], -172800000⟩ (by simp) rfl).2 (by decide)⟩

/-!
Claim C6.
-/

/-- Number of reviews carrying one sentiment label. -/
def countLabel (l : String) (reviews : List CanonicalReview) : Nat :=
  reviews.countP fun r => r.sentiment == l

lemma countLabel_cons (l : String) (r : CanonicalReview) (rs : List CanonicalReview) :
    countLabel l (r :: rs) = countLabel l rs + (if r.sentiment == l then 1 else 0) := by
  simp [countLabel, List.countP_cons]

lemma analyzeSentiment_mem_labels (t : Option String) :
    analyzeSentiment t ∈ sentimentLabels := by
  match t with
  | none => decide
  | some s =>
      simp only [analyzeSentiment]
      split_ifs <;> decide

lemma processed_sentiment_mem (platform : Platform) (raws : List RawReview) :
    ∀ r ∈ processedReviews platform raws, r.sentiment ∈ sentimentLabels := by
  intro r hr
  rcases List.mem_map.mp hr with ⟨raw, _, rfl⟩
  exact analyzeSentiment_mem_labels _

lemma sentimentCountsLoop_eq :
    ∀ rs : List CanonicalReview, (∀ r ∈ rs, r.sentiment ∈ sentimentLabels) →
      ∀ a b c d e : Nat,
      List.foldl (fun acc r => bump r.sentiment acc)
          [("positive", a), ("somewhat positive", b), ("neutral", c),
           ("somewhat negative", d), ("negative", e)] rs
        = [("positive", a + countLabel "positive" rs),
           ("somewhat positive", b + countLabel "somewhat positive" rs),
           ("neutral", c + countLabel "neutral" rs),
           ("somewhat negative", d + countLabel "somewhat negative" rs),
           ("negative", e + countLabel "negative" rs)]
  | [], _, a, b, c, d, e => by simp [countLabel]
  | r :: rs, h, a, b, c, d, e => by
      have hr : r.sentiment = "positive" ∨ r.sentiment = "somewhat positive"
          ∨ r.sentiment = "neutral" ∨ r.sentiment = "somewhat negative"
          ∨ r.sentiment = "negative" := by
        simpa [sentimentLabels] using h r (List.mem_cons_self r rs)
      have hrest : ∀ x ∈ rs, x.sentiment ∈ sentimentLabels :=
        fun x hx => h x (List.mem_cons_of_mem r hx)
      rw [List.foldl_cons]
      rcases hr with h1 | h1 | h1 | h1 | h1
      · rw [h1]
        refine (sentimentCountsLoop_eq rs hrest (a + 1) b c d e).trans ?_
        simp [countLabel_cons, h1]
        omega
      · rw [h1]
        refine (sentimentCountsLoop_eq rs hrest a (b + 1) c d e).trans ?_
        simp [countLabel_cons, h1]
        omega
      · rw [h1]
        refine (sentimentCountsLoop_eq rs hrest a b (c + 1) d e).trans ?_
        simp [countLabel_cons, h1]
        omega
      · rw [h1]
        refine (sentimentCountsLoop_eq rs hrest a b c (d + 1) e).trans ?_
        simp [countLabel_cons, h1]
        omega
      · rw [h1]
        refine (sentimentCountsLoop_eq rs hrest a b c d (e + 1)).trans ?_
        simp [countLabel_cons, h1]
        omega

lemma sentimentCounts_eq (rs : List CanonicalReview)
    (h : ∀ r ∈ rs, r.sentiment ∈ sentimentLabels) :
    sentimentCounts rs
      = [("positive", countLabel "positive" rs),
         ("somewhat positive", countLabel "somewhat positive" rs),
         ("neutral", countLabel "neutral" rs),
         ("somewhat negative", countLabel "somewhat negative" rs),
         ("negative", countLabel "negative" rs)] := by
  have := sentimentCountsLoop_eq rs h 0 0 0 0 0
  simpa [sentimentCounts, sentimentCountsInit] using this

lemma countLabel_partition (rs : List CanonicalReview)
    (h : ∀ r ∈ rs, r.sentiment ∈ sentimentLabels) :
    countLabel "positive" rs + countLabel "somewhat positive" rs
        + countLabel "neutral" rs + countLabel "somewhat negative" rs
        + countLabel "negative" rs = rs.length := by
  induction rs with
  | nil => simp [countLabel]
  | cons r rs ih =>
      have hr : r.sentiment = "positive" ∨ r.sentiment = "somewhat positive"
          ∨ r.sentiment = "neutral" ∨ r.sentiment = "somewhat negative"
          ∨ r.sentiment = "negative" := by
        simpa [sentimentLabels] using h r (List.mem_cons_self r rs)
      have ih2 := ih fun x hx => h x (List.mem_cons_of_mem r hx)
      simp only [countLabel_cons, List.length_cons]
      rcases hr with h1 | h1 | h1 | h1 | h1 <;> simp [h1] <;> omega

lemma sentimentBreakdown_eq (rs : List CanonicalReview)
    (h : ∀ r ∈ rs, r.sentiment ∈ sentimentLabels) :
    sentimentBreakdown rs
      = sentimentLabels.map fun l =>
          (l, round2 (if rs.length = 0 then 0
                      else ((countLabel l rs : ℚ) / (rs.length : ℚ)) * 100)) := by
  rw [sentimentBreakdown, sentimentCounts_eq rs h]
  simp [sentimentLabels]

lemma round2_sub_le (q : ℚ) : |round2 q - q| ≤ 1 / 200 := by
  rw [round2, ratFloor_eq_intFloor]
  have h1 : (⌊q * 100 + 1 / 2⌋ : ℚ) ≤ q * 100 + 1 / 2 := Int.floor_le _
  have h2 : q * 100 + 1 / 2 - 1 < (⌊q * 100 + 1 / 2⌋ : ℚ) := Int.sub_one_lt_floor _
  rw [abs_le]
  constructor <;> [linarith; linarith]

/-- C6: over the processed review collection, the sentiment breakdown
lists all five labels (in the fixed key order) even at count zero, each
mapped to count / total × 100 rounded to two decimals; for a non-empty
collection the five percentages sum to 100 up to the accumulated
rounding error (at most 1/40 = 0.025, five roundings of at most 1/200
each); for the empty collection all five percentages are 0. -/
theorem sentimentBreakdown_spec (platform : Platform) (raws : List RawReview) :
    keysOf (sentimentBreakdown (processedReviews platform raws)) = sentimentLabels
      ∧ ((processedReviews platform raws).length ≠ 0 →
          sentimentBreakdown (processedReviews platform raws)
            = sentimentLabels.map fun l =>
                (l, round2 (((countLabel l (processedReviews platform raws) : ℚ)
                      / ((processedReviews platform raws).length : ℚ)) * 100)))
      ∧ ((processedReviews platform raws).length ≠ 0 →
          |((sentimentBreakdown (processedReviews platform raws)).map Prod.snd).sum
              - 100| ≤ 1 / 40)
      ∧ ((processedReviews platform raws).length = 0 →
          sentimentBreakdown (processedReviews platform raws)
            = sentimentLabels.map fun l => (l, 0)) := by
  set rs := processedReviews platform raws with hrs
  have hmem : ∀ r ∈ rs, r.sentiment ∈ sentimentLabels :=
    processed_sentiment_mem platform raws
  have hbd := sentimentBreakdown_eq rs hmem
  refine ⟨?_, ?_, ?_, ?_⟩
  · rw [hbd]
    simp [sentimentLabels, keysOf]
  · intro hT
    rw [hbd]
    simp [hT]
  · intro hT
    have hT' : ((rs.length : ℚ)) ≠ 0 := by
      exact_mod_cast hT
    have hpart : ((countLabel "positive" rs : ℚ) + (countLabel "somewhat positive" rs : ℚ)
        + (countLabel "neutral" rs : ℚ) + (countLabel "somewhat negative" rs : ℚ)
        + (countLabel "negative" rs : ℚ)) = (rs.length : ℚ) := by
      exact_mod_cast countLabel_partition rs hmem
    rw [hbd]
    simp only [hT, if_false, sentimentLabels, List.map_cons, List.map_nil,
      List.sum_cons, List.sum_nil]
    have hsum : ((countLabel "positive" rs : ℚ) / (rs.length : ℚ)) * 100
        + ((countLabel "somewhat positive" rs : ℚ) / (rs.length : ℚ)) * 100
        + ((countLabel "neutral" rs : ℚ) / (rs.length : ℚ)) * 100
        + ((countLabel "somewhat negative" rs : ℚ) / (rs.length : ℚ)) * 100
        + ((countLabel "negative" rs : ℚ) / (rs.length : ℚ)) * 100 = 100 := by
      have hcollect : ((countLabel "positive" rs : ℚ) / (rs.length : ℚ)) * 100
          + ((countLabel "somewhat positive" rs : ℚ) / (rs.length : ℚ)) * 100
          + ((countLabel "neutral" rs : ℚ) / (rs.length : ℚ)) * 100
          + ((countLabel "somewhat negative" rs : ℚ) / (rs.length : ℚ)) * 100
          + ((countLabel "negative" rs : ℚ) / (rs.length : ℚ)) * 100
          = (((countLabel "positive" rs : ℚ) + (countLabel "somewhat positive" rs : ℚ)
              + (countLabel "neutral" rs : ℚ) + (countLabel "somewhat negative" rs : ℚ)
              + (countLabel "negative" rs : ℚ)) / (rs.length : ℚ)) * 100 := by
        ring
      rw [hcollect, hpart, div_self hT', one_mul]
    have e1 := round2_sub_le (((countLabel "positive" rs : ℚ) / (rs.length : ℚ)) * 100)
    have e2 := round2_sub_le
      (((countLabel "somewhat positive" rs : ℚ) / (rs.length : ℚ)) * 100)
    have e3 := round2_sub_le (((countLabel "neutral" rs : ℚ) / (rs.length : ℚ)) * 100)
    have e4 := round2_sub_le
      (((countLabel "somewhat negative" rs : ℚ) / (rs.length : ℚ)) * 100)
    have e5 := round2_sub_le (((countLabel "negative" rs : ℚ) / (rs.length : ℚ)) * 100)
    rw [abs_le] at e1 e2 e3 e4 e5 ⊢
    constructor <;> linarith
  · intro hT
    rw [hbd]
    simp [hT, round2_zero]

/-- C6 witness: a one-review collection (hypothesis total nonzero
discharged) and the empty collection (hypothesis total zero
discharged). -/
theorem sentimentBreakdown_spec_witness :
    (|((sentimentBreakdown (processedReviews Platform.android
          [⟨"1", some "love it", 5, 0, 0⟩])).map Prod.snd).sum - 100| ≤ 1 / 40)
      ∧ sentimentBreakdown (processedReviews Platform.ios [])
          = sentimentLabels.map fun l => (l, 0) :=
  ⟨(sentimentBreakdown_spec Platform.android
      [⟨"1", some "love it", 5, 0, 0⟩]).2.2.1 (by decide),
   (sentimentBreakdown_spec Platform.ios []).2.2.2 rfl⟩

end AppStore
